import Mathlib

/-!
Verification of the markdown → HTML static site generator.

Python strings are modelled as `List Char`; `pstr` converts a Lean string
literal to that representation.  Python functions that can raise are
modelled in `Except String α` with the source's error messages.  Functions
whose Python recursion skips more than one character per step are
implemented with an explicit fuel argument (always called with fuel
`length + 1`, which is more than the number of loop iterations the Python
code performs), so that every definition is structurally recursive and
evaluates by `rfl`/`decide`.
-/

deriving instance DecidableEq for Except

def pstr (s : String) : List Char := s.data

/-- Python whitespace test, used by `str.strip` / `str.split()` / `\s`. -/
def pySpace (c : Char) : Bool := c.isWhitespace

/-- Helper for `pySplitF`: prepend a character to the first section. -/
def glue (c : Char) : List (List Char) → List (List Char)
  | [] => [[c]]
  | h :: t => (c :: h) :: t

/-- Python `s.split(d)` for a non-empty separator `d`, fuelled.  At each
position: if the separator matches, close the current section and continue
after it; otherwise move one character into the current section. -/
def pySplitF : Nat → List Char → List Char → List (List Char)
  | 0, s, _ => [s]
  | fuel+1, s, d =>
    if d ≠ [] ∧ d.isPrefixOf s then [] :: pySplitF fuel (s.drop d.length) d
    else
      match s with
      | [] => [[]]
      | c :: t => glue c (pySplitF fuel t d)

/-- Python `s.split(d)` (non-overlapping, left to right; `"".split(d) = [""]`). -/
def pySplit (s d : List Char) : List (List Char) := pySplitF (s.length + 1) s d

/-- Python `s.split(d, 1)`: `none` when the separator does not occur
(Python returns the single-element list `[s]`), otherwise the two parts
around the first occurrence. -/
def splitOnce : List Char → List Char → Option (List Char × List Char)
  | [], d => if d.isPrefixOf ([] : List Char) then some ([], []) else none
  | c :: t, d =>
    if d.isPrefixOf (c :: t) then some ([], (c :: t).drop d.length)
    else (splitOnce t d).map fun p => (c :: p.1, p.2)

/-- The `TextType` enum of `textnode.py`. -/
inductive TextType
  | TEXT | BOLD | ITALIC | CODE | LINK | IMAGE
deriving DecidableEq

/-- The `TextNode` class of `textnode.py`: text, type, optional url
(`url=None` by default). -/
structure TextNode where
  text : List Char
  text_type : TextType
  url : Option (List Char)
deriving DecidableEq

/-- The inner for-loop of `split_nodes_delimiter`: section `i` becomes a
node of type TEXT (even `i`) or the target type (odd `i`); empty sections
are skipped. -/
def sections_to_nodes (sections : List (List Char)) (ty : TextType) : List TextNode :=
  sections.enum.filterMap fun p =>
    if p.2 = [] then none
    else some ⟨p.2, if p.1 % 2 == 0 then .TEXT else ty, none⟩

/-- The `split_nodes_delimiter` function of `inline_markdown.py`.  Non-TEXT
nodes pass through; a TEXT node is split on the delimiter, an even number
of sections is the unclosed-delimiter error.  (The stray `print` in the
source is I/O only and not modelled.) -/
def split_nodes_delimiter : List TextNode → List Char → TextType → Except String (List TextNode)
  | [], _, _ => .ok []
  | n :: rest, d, ty =>
    if n.text_type ≠ .TEXT then do
      let r ← split_nodes_delimiter rest d ty
      .ok (n :: r)
    else
      let sections := pySplit n.text d
      if sections.length % 2 == 0 then
        .error "Invalid markdown, formatted section not closed"
      else do
        let r ← split_nodes_delimiter rest d ty
        .ok (sections_to_nodes sections ty ++ r)

/-- Characters allowed inside a label: the regex class excluding brackets. -/
def notBracket (c : Char) : Bool := c != '[' && c != ']'

/-- Characters allowed inside a destination: the regex class excluding parens. -/
def notParen (c : Char) : Bool := c != '(' && c != ')'

/-- Shared tail of the image/link regexes after their opening bracket: a
run of non-bracket characters (the label), `](`, a run of non-paren
characters (the destination), `)`.  The greedy classes cannot match their
closing delimiters, so the regex is this deterministic scan. -/
def matchTail (rest : List Char) : Option (List Char × List Char × List Char) :=
  match rest.dropWhile notBracket with
  | b1 :: b2 :: rest2 =>
    if b1 = ']' ∧ b2 = '(' then
      match rest2.dropWhile notParen with
      | p1 :: r =>
        if p1 = ')' then some (rest.takeWhile notBracket, rest2.takeWhile notParen, r)
        else none
      | _ => none
    else none
  | _ => none

/-- Attempt to match the image regex anchored at the head of `s`:
consume `![`, then `matchTail`. -/
def matchImageAt : List Char → Option (List Char × List Char × List Char)
  | c1 :: c2 :: rest => if c1 = '!' ∧ c2 = '[' then matchTail rest else none
  | _ => none

/-- Attempt to match the link regex (without its lookbehind) anchored at
the head of `s`: consume `[`, then `matchTail`. -/
def matchLinkAt : List Char → Option (List Char × List Char × List Char)
  | c1 :: rest => if c1 = '[' then matchTail rest else none
  | _ => none

/-- The literal image syntax rebuilt from a label and destination, as in
the f-string of `split_nodes_image`. -/
def imgLit (l d : List Char) : List Char := '!' :: '[' :: (l ++ ']' :: '(' :: (d ++ [')']))

/-- The literal link syntax rebuilt from a label and destination, as in
the f-string of `split_nodes_link`. -/
def linkLit (l d : List Char) : List Char := '[' :: (l ++ ']' :: '(' :: (d ++ [')']))

/-- Fuelled scan of `re.findall` for the image pattern: try a match at
every position, left to right, continuing after each match. -/
def findImagesF : Nat → List Char → List (List Char × List Char)
  | 0, _ => []
  | fuel+1, s =>
    match matchImageAt s with
    | some (l, d, r) => (l, d) :: findImagesF fuel r
    | none =>
      match s with
      | [] => []
      | _ :: t => findImagesF fuel t

/-- The `extract_markdown_images` function of `inline_markdown.py`. -/
def extract_markdown_images (s : List Char) : List (List Char × List Char) :=
  findImagesF (s.length + 1) s

/-- Fuelled scan of `re.findall` for the link pattern.  `bang` records
whether the previous character was `!` (the negative lookbehind). -/
def findLinksF : Nat → Bool → List Char → List (List Char × List Char)
  | 0, _, _ => []
  | fuel+1, bang, s =>
    match s with
    | [] => []
    | c :: t =>
      if bang then findLinksF fuel (c == '!') t
      else
        match matchLinkAt s with
        | some (l, d, r) => (l, d) :: findLinksF fuel false r
        | none => findLinksF fuel (c == '!') t

/-- The `extract_markdown_links` function of `inline_markdown.py`. -/
def extract_markdown_links (s : List Char) : List (List Char × List Char) :=
  findLinksF (s.length + 1) false s

/-- The per-image for-loop of `split_nodes_image`: split the remaining
text on the reconstructed literal (`maxsplit=1`); a split that does not
produce exactly two parts is the unclosed-image error; the trailing
remainder becomes a final TEXT node if non-empty. -/
def image_loop (original : List Char) : List (List Char × List Char) → Except String (List TextNode)
  | [] => .ok (if original ≠ [] then [⟨original, .TEXT, none⟩] else [])
  | (l, u) :: rest =>
    match splitOnce original (imgLit l u) with
    | none => .error "Invalid markdown, image section not closed"
    | some (pre, suf) => do
      let tail ← image_loop suf rest
      .ok ((if pre ≠ [] then [⟨pre, .TEXT, none⟩] else []) ++ ⟨l, .IMAGE, some u⟩ :: tail)

/-- The `split_nodes_image` function of `inline_markdown.py`. -/
def split_nodes_image : List TextNode → Except String (List TextNode)
  | [] => .ok []
  | n :: rest =>
    if n.text_type ≠ .TEXT then do
      let r ← split_nodes_image rest
      .ok (n :: r)
    else
      let images := extract_markdown_images n.text
      if images.isEmpty then do
        let r ← split_nodes_image rest
        .ok (n :: r)
      else do
        let pieces ← image_loop n.text images
        let r ← split_nodes_image rest
        .ok (pieces ++ r)

/-- The per-link for-loop of `split_nodes_link`. -/
def link_loop (original : List Char) : List (List Char × List Char) → Except String (List TextNode)
  | [] => .ok (if original ≠ [] then [⟨original, .TEXT, none⟩] else [])
  | (l, u) :: rest =>
    match splitOnce original (linkLit l u) with
    | none => .error "Invalid markdown, link section not closed"
    | some (pre, suf) => do
      let tail ← link_loop suf rest
      .ok ((if pre ≠ [] then [⟨pre, .TEXT, none⟩] else []) ++ ⟨l, .LINK, some u⟩ :: tail)

/-- The `split_nodes_link` function of `inline_markdown.py`. -/
def split_nodes_link : List TextNode → Except String (List TextNode)
  | [] => .ok []
  | n :: rest =>
    if n.text_type ≠ .TEXT then do
      let r ← split_nodes_link rest
      .ok (n :: r)
    else
      let links := extract_markdown_links n.text
      if links.isEmpty then do
        let r ← split_nodes_link rest
        .ok (n :: r)
      else do
        let pieces ← link_loop n.text links
        let r ← split_nodes_link rest
        .ok (pieces ++ r)

/-- The `text_to_textnodes` function of `inline_markdown.py`: the source
nests the five calls; evaluation order is identical to this sequence. -/
def text_to_textnodes (text : List Char) : Except String (List TextNode) := do
  let n1 ← split_nodes_delimiter [⟨text, .TEXT, none⟩] (pstr "**") .BOLD
  let n2 ← split_nodes_delimiter n1 (pstr "*") .ITALIC
  let n3 ← split_nodes_delimiter n2 (pstr "`") .CODE
  let n4 ← split_nodes_image n3
  split_nodes_link n4

/-- Number of non-overlapping occurrences of `d` in `s`, counted the way
Python's `split` produces sections: the spec equates "the delimiter
appears an even number of times" with "an odd count of segments". -/
def occCount (s d : List Char) : Nat := (pySplit s d).length - 1

/-- Python rendering of a string-or-None value inside an f-string. -/
def pyShowOpt : Option (List Char) → List Char
  | some s => s
  | none => pstr "None"

/-- The `HTMLNode` hierarchy of `htmlnode.py`: `LeafNode(tag, value, props)`
(children always None) and `ParentNode(tag, children, props)` (value always
None).  Every field that Python allows to be `None` is an `Option`;
attribute values may themselves be `None` (rendered as "None"). -/
inductive HTMLNode
  | leaf (tag : Option (List Char)) (value : Option (List Char))
      (props : Option (List (List Char × Option (List Char))))
  | parent (tag : Option (List Char)) (children : Option (List HTMLNode))
      (props : Option (List (List Char × Option (List Char))))

/-- The `props_to_html` method of `HTMLNode`: `None` props give the empty
string, otherwise each attribute renders space-prefixed in order. -/
def props_to_html : Option (List (List Char × Option (List Char))) → List Char
  | none => []
  | some props => props.foldl (fun acc p => acc ++ ' ' :: (p.1 ++ '=' :: '"' :: (pyShowOpt p.2 ++ ['"']))) []

mutual

/-- The `to_html` methods of `LeafNode` and `ParentNode` in `htmlnode.py`. -/
def to_html : HTMLNode → Except String (List Char)
  | .leaf tag value props =>
    match value with
    | none => .error "Invalid HTML: no value"
    | some v =>
      match tag with
      | none => .ok v
      | some t => .ok ('<' :: (t ++ props_to_html props) ++ '>' :: (v ++ '<' :: '/' :: (t ++ ['>'])))
  | .parent tag children props =>
    match tag with
    | none => .error "Invalid HTML: no tag"
    | some t =>
      match children with
      | none => .error "Invalid HTML: no children"
      | some cs => do
        let body ← children_html cs
        .ok ('<' :: (t ++ props_to_html props) ++ '>' :: (body ++ '<' :: '/' :: (t ++ ['>'])))

/-- The child-concatenation loop of `ParentNode.to_html`. -/
def children_html : List HTMLNode → Except String (List Char)
  | [] => .ok []
  | c :: rest => do
    let a ← to_html c
    let b ← children_html rest
    .ok (a ++ b)

end

/-- The `text_node_to_html_node` function of `textnode.py`.  The final
`raise` of the source is unreachable here because the six enum members are
matched exhaustively. -/
def text_node_to_html_node (n : TextNode) : HTMLNode :=
  match n.text_type with
  | .TEXT => .leaf none (some n.text) none
  | .BOLD => .leaf (some (pstr "b")) (some n.text) none
  | .ITALIC => .leaf (some (pstr "i")) (some n.text) none
  | .CODE => .leaf (some (pstr "code")) (some n.text) none
  | .LINK => .leaf (some (pstr "a")) (some n.text) (some [(pstr "href", n.url)])
  | .IMAGE => .leaf (some (pstr "img")) (some []) (some [(pstr "src", n.url), (pstr "alt", some n.text)])

/-- The `BlockType` enum of `markdown_blocks.py`. -/
inductive BlockType
  | HEADING | CODE | PARAGRAPH | QUOTE | UNORDERED_LIST | ORDERED_LIST
deriving DecidableEq

/-- The `.value` string of each `BlockType` member. -/
def BlockType.value : BlockType → List Char
  | .HEADING => pstr "heading"
  | .CODE => pstr "code"
  | .PARAGRAPH => pstr "paragraph"
  | .QUOTE => pstr "quote"
  | .UNORDERED_LIST => pstr "unordered_list"
  | .ORDERED_LIST => pstr "ordered_list"

/-- Python `list.remove(v)`: drop the leftmost element equal to `v`. -/
def removeFirst : List (List Char) → List Char → List (List Char)
  | [], _ => []
  | x :: t, v => if x = v then t else x :: removeFirst t v

/-- The for-loop of `markdown_to_blocks`.  Python iterates with an internal
index over the very list it mutates: `blocks.remove(block)` deletes the
leftmost equal element and shifts the rest down, so the element that moves
into the current position is skipped; the rebinding `block = block.strip()`
changes the loop variable only, never the list.  The fuel (initial length
plus one) exceeds the number of iterations, since the index grows by one
per step and the list never grows. -/
def mdBlocksGo : Nat → List (List Char) → Nat → List (List Char)
  | 0, blocks, _ => blocks
  | fuel+1, blocks, i =>
    if h : i < blocks.length then
      if blocks[i] = [] then mdBlocksGo fuel (removeFirst blocks []) (i+1)
      else mdBlocksGo fuel blocks (i+1)
    else blocks

/-- The `markdown_to_blocks` function of `markdown_blocks.py`. -/
def markdown_to_blocks (markdown : List Char) : List (List Char) :=
  let blocks := pySplit markdown (pstr "\n\n")
  mdBlocksGo (blocks.length + 1) blocks 0

/-- Worker for Python `str.split()` (no argument: split on whitespace runs,
no empty tokens); `acc` is the current token, reversed. -/
def pySplitWsGo : List Char → List Char → List (List Char)
  | [], acc => if acc = [] then [] else [acc.reverse]
  | c :: t, acc =>
    if pySpace c then
      if acc = [] then pySplitWsGo t [] else acc.reverse :: pySplitWsGo t []
    else pySplitWsGo t (c :: acc)

/-- Python `str.split()` with no separator argument. -/
def pySplitWs (s : List Char) : List (List Char) := pySplitWsGo s []

/-- Python `all(...)` over a generator whose elements may raise: evaluates
left to right, short-circuits at the first false element. -/
def pyAll {α : Type} (f : α → Except String Bool) : List α → Except String Bool
  | [] => .ok true
  | x :: t => do
    if (← f x) then pyAll f t else .ok false

/-- One heading-test conjunct of `block_to_block_type`:
`1 <= len(line.split()[0]) <= 6 and line[0] == "#"`.  Indexing `[0]` into
the token list raises IndexError when the line has no tokens; when a token
exists the line is non-empty, so `line[0]` is its head. -/
def heading_line_check (line : List Char) : Except String Bool :=
  match pySplitWs line with
  | [] => .error "IndexError: list index out of range"
  | tok :: _ =>
    .ok (decide (1 ≤ tok.length ∧ tok.length ≤ 6) && decide (line.headD ' ' = '#'))

/-- One unordered-list conjunct of `block_to_block_type`:
`line.startswith(("*", "-")) and line[1] == " "`; `line[1]` raises
IndexError on a one-character line. -/
def unordered_line_check (line : List Char) : Except String Bool :=
  if (pstr "*").isPrefixOf line || (pstr "-").isPrefixOf line then
    match line with
    | _ :: c2 :: _ => .ok (c2 == ' ')
    | _ => .error "IndexError: string index out of range"
  else .ok false

/-- The regex `^\d\.\s` of `block_to_block_type` and `block_to_html_node`:
a digit, a period and a whitespace character at the start of the line. -/
def ordered_line_check (line : List Char) : Bool :=
  match line with
  | a :: b :: c :: _ => a.isDigit && b == '.' && pySpace c
  | _ => false

/-- The `block_to_block_type` function of `markdown_blocks.py`.  It returns
`.value` strings, not enum members; in the heading branch an inner `if`
without an `else` means that a block starting with `#` whose lines fail the
heading test makes the function fall off its end, i.e. return Python
`None` (modelled as `none`). -/
def block_to_block_type (block : List Char) : Except String (Option (List Char)) :=
  if (pstr "#").isPrefixOf block then do
    if (← pyAll heading_line_check (pySplit block (pstr "\n"))) then
      .ok (some BlockType.HEADING.value)
    else
      .ok none
  else if (pstr "```").isPrefixOf block && (pstr "```").isSuffixOf block then
    .ok (some BlockType.CODE.value)
  else if (pySplit block (pstr "\n")).all (fun l => (pstr ">").isPrefixOf l) then
    .ok (some BlockType.QUOTE.value)
  else do
    if (← pyAll unordered_line_check (pySplit block (pstr "\n"))) then
      .ok (some BlockType.UNORDERED_LIST.value)
    else if (pySplit block (pstr "\n")).all ordered_line_check then
      .ok (some BlockType.ORDERED_LIST.value)
    else
      .ok (some BlockType.PARAGRAPH.value)

/-- The `text_to_children` function of `markdown_blocks.py`. -/
def text_to_children (text : List Char) : Except String (List HTMLNode) := do
  let nodes ← text_to_textnodes text
  .ok (nodes.map text_node_to_html_node)

/-- Python `block.find(" ")`: index of the first space, `-1` if absent. -/
def pyFindSpaceGo : List Char → Nat → Int
  | [], _ => -1
  | c :: t, i => if c == ' ' then (i : Int) else pyFindSpaceGo t (i + 1)

def pyFindSpace (s : List Char) : Int := pyFindSpaceGo s 0

/-- Python slice `s[0:k]`: a negative `k` counts back from the end
(clamped at zero). -/
def pyTake (s : List Char) (k : Int) : List Char :=
  if k < 0 then s.take ((s.length : Int) + k).toNat else s.take k.toNat

/-- The `process_heading` function of `markdown_blocks.py`:
`level = block.count("#", 0, block.find(" "))`, then the marker plus one
space are stripped. -/
def process_heading (block : List Char) : Except String HTMLNode := do
  let level := (pyTake block (pyFindSpace block)).count '#'
  if block.length ≤ level + 1 then .error "Invalid heading block"
  else do
    let children ← text_to_children (block.drop (level + 1))
    .ok (.parent (some ('h' :: (Nat.repr level).data)) (some children) none)

/-- Python `sep.join(parts)`. -/
def joinSep (sep : List Char) : List (List Char) → List Char
  | [] => []
  | [x] => x
  | x :: t => x ++ sep ++ joinSep sep t

/-- The `process_paragraph` function of `markdown_blocks.py`. -/
def process_paragraph (block : List Char) : Except String HTMLNode := do
  let children ← text_to_children (joinSep (pstr " ") (pySplit block (pstr "\n")))
  .ok (.parent (some (pstr "p")) (some children) none)

/-- Python `str.strip()`: remove leading and trailing whitespace. -/
def pyStrip (s : List Char) : List Char :=
  ((s.dropWhile pySpace).reverse.dropWhile pySpace).reverse

/-- The `process_code` function of `markdown_blocks.py`; the slice
`block[3:-3]` is drop 3 then drop 3 from the right (clamped). -/
def process_code (block : List Char) : Except String HTMLNode :=
  if ¬ ((pstr "```").isPrefixOf block ∧ (pstr "```").isSuffixOf block) then
    .error "Invalid code block"
  else do
    let inner := block.drop 3
    let children ← text_to_children (pyStrip (inner.take (inner.length - 3)))
    .ok (.parent (some (pstr "code")) (some children) none)

/-- The marker-stripping loop of `process_quote` (each accepted line loses
its first two characters). -/
def quote_strip_lines : List (List Char) → Except String (List (List Char))
  | [] => .ok []
  | l :: t =>
    if (pstr ">").isPrefixOf l then do
      let r ← quote_strip_lines t
      .ok (l.drop 2 :: r)
    else .error "Invalid quote block"

/-- The `process_quote` function of `markdown_blocks.py`. -/
def process_quote (block : List Char) : Except String HTMLNode := do
  let newLines ← quote_strip_lines (pySplit block (pstr "\n"))
  let children ← text_to_children (joinSep (pstr " ") newLines)
  .ok (.parent (some (pstr "blockquote")) (some children) none)

/-- The per-line loop of `process_list`. -/
def list_items (pat : List Char → Bool) (pfx : Nat) : List (List Char) → Except String (List HTMLNode)
  | [] => .ok []
  | line :: t =>
    if pat line then do
      let children ← text_to_children (line.drop pfx)
      let r ← list_items pat pfx t
      .ok (.parent (some (pstr "li")) (some children) none :: r)
    else .error "Invalid list block"

/-- The regex `^[\*\-]\s` used for unordered list items. -/
def unordered_item_pat (line : List Char) : Bool :=
  match line with
  | a :: b :: _ => (a == '*' || a == '-') && pySpace b
  | _ => false

/-- The `process_list` function of `markdown_blocks.py`. -/
def process_list (block : List Char) (list_type : List Char)
    (pat : List Char → Bool) (pfx : Nat) : Except String HTMLNode := do
  let items ← list_items pat pfx (pySplit block (pstr "\n"))
  .ok (.parent (some list_type) (some items) none)

/-- Python `==` between the classification result of `block_to_block_type`
(a `str`, namely some `BlockType.value`, or `None`) and a `BlockType` enum
member, as performed by the value patterns of the `match` statement in
`block_to_html_node`.  A plain-Enum member is equal only to itself
(`str.__eq__` returns NotImplemented for an Enum operand and Enum equality
falls back to identity), so this comparison is always false. -/
def pyEqBlock (_ : Option (List Char)) (_ : BlockType) : Bool := false

/-- The `block_to_html_node` function of `markdown_blocks.py`.  The source
dispatches with a `match` whose case patterns are the enum members,
compared against the string-or-None `block_type` by `==` (see
`pyEqBlock`); every case fails and control reaches the wildcard, which
raises `ValueError` with the f-string interpolation of `block_type`. -/
def block_to_html_node (block : List Char) : Except String HTMLNode := do
  let block_type ← block_to_block_type block
  if pyEqBlock block_type .HEADING then process_heading block
  else if pyEqBlock block_type .PARAGRAPH then process_paragraph block
  else if pyEqBlock block_type .CODE then process_code block
  else if pyEqBlock block_type .QUOTE then process_quote block
  else if pyEqBlock block_type .UNORDERED_LIST then process_list block (pstr "ul") unordered_item_pat 2
  else if pyEqBlock block_type .ORDERED_LIST then process_list block (pstr "ol") ordered_line_check 3
  else .error ("Invalid block type: " ++ String.mk (pyShowOpt block_type))

/-- The `markdown_to_html_node` function of `markdown_blocks.py`; the list
comprehension evaluates `block_to_html_node` on the blocks in order and
aborts at the first raised error. -/
def markdown_to_html_node (markdown : List Char) : Except String HTMLNode := do
  let children ← (markdown_to_blocks markdown).mapM block_to_html_node
  .ok (.parent (some (pstr "div")) (some children) none)

/-- The line scan of `extract_title` in `generate_page.py`. -/
def find_title_line : List (List Char) → Except String (List Char)
  | [] => .error "No title found in the markdown file"
  | l :: t => if (pstr "# ").isPrefixOf l then .ok (l.drop 2) else find_title_line t

/-- The `extract_title` function of `generate_page.py`. -/
def extract_title (markdown : List Char) : Except String (List Char) :=
  find_title_line (pySplit markdown (pstr "\n"))

/-! ### Basic lemmas about the embedding -/

theorem error_bind {α β : Type} (e : String) (f : α → Except String β) :
    (Except.error e >>= f) = Except.error e := rfl

theorem ok_bind {α β : Type} (a : α) (f : α → Except String β) :
    (Except.ok a >>= f) = f a := rfl

theorem except_bind_ok {α β : Type} {x : Except String α} {f : α → Except String β} {b : β}
    (h : (x >>= f) = .ok b) : ∃ a, x = .ok a ∧ f a = .ok b := by
  cases x with
  | error e => rw [error_bind] at h; exact absurd h (by simp)
  | ok a => rw [ok_bind] at h; exact ⟨a, rfl, h⟩

theorem glue_ne_nil (c : Char) (L : List (List Char)) : glue c L ≠ [] := by
  cases L <;> simp [glue]

theorem pySplitF_ne_nil (fuel : Nat) (s d : List Char) : pySplitF fuel s d ≠ [] := by
  cases fuel with
  | zero => simp [pySplitF]
  | succ n =>
    simp only [pySplitF]
    split
    · simp
    · split
      · simp
      · exact glue_ne_nil _ _

theorem pySplit_ne_nil (s d : List Char) : pySplit s d ≠ [] :=
  pySplitF_ne_nil _ _ _

/-! ### Claims C1 to C5 and C8 -/

/-- C1: the claim says the document `"# Title\n\nThis is **bold** and
*italic* and `code`."` compiles and renders to
`"<div><h1>Title</h1><p>This is <b>bold</b> and <i>italic</i> and
<code>code</code>.</p></div>"`.  The code instead raises
`ValueError("Invalid block type: heading")` at the very first block,
because `block_to_block_type` returns the enum's `.value` string while
`block_to_html_node` matches it against the enum members themselves. -/
theorem c1_end_to_end_raises :
    markdown_to_html_node (pstr "# Title\n\nThis is **bold** and *italic* and `code`.")
      = .error "Invalid block type: heading" := by rfl

/-- C2: the claim says the defensive "Invalid block type" branch of
`block_to_html_node` is unreachable.  In the code it is reached on every
input: the classification result (a string or None) never equals a
`BlockType` member, so every block makes `block_to_html_node` raise. -/
theorem c2_dispatch_always_fails (block : List Char) :
    ∃ e, block_to_html_node block = .error e := by
  cases h : block_to_block_type block with
  | error e => exact ⟨e, by unfold block_to_html_node; rw [h, error_bind]⟩
  | ok bt =>
    refine ⟨"Invalid block type: " ++ String.mk (pyShowOpt bt), ?_⟩
    unfold block_to_html_node
    rw [h, ok_bind]
    simp [pyEqBlock]

/-- C3: the claim says every block returned by `markdown_to_blocks` is
non-empty after trimming and equals its own trimmed form.  On the input
`" A\n\n\n\n\n\nB"` the code returns `[" A", "", "B"]`: the leading space
of `" A"` survives (the loop rebinds its variable instead of storing the
stripped block) and an empty block survives (removing while iterating
skips the element that shifts into the current position). -/
theorem c3_blocks_not_trimmed_and_empty_kept :
    markdown_to_blocks (pstr " A\n\n\n\n\n\nB") = [pstr " A", pstr "", pstr "B"] := by rfl

/-- C4: the claim says a block starting with `#` whose lines fail the
1–6-hashes-plus-space test is classified as paragraph.  The code's heading
branch has no else, so such a block makes `block_to_block_type` fall off
the end and return Python `None` instead of `"paragraph"`. -/
theorem c4_bad_heading_returns_none :
    block_to_block_type (pstr "####### x") = .ok none := by rfl

/-- C5 (amended): for every text in which the delimiter `**` occurs an odd
number of times, lexing fails with the unclosed-delimiter error.  (The
first delimiter pass sees the raw text, so an odd `**` count always yields
an even section count and the error; the original claim's version for `*`
and `` ` `` fails, see the counterexample.) -/
theorem c5_double_star_odd_fails (s : List Char)
    (h : Odd (occCount s (pstr "**"))) :
    text_to_textnodes s = .error "Invalid markdown, formatted section not closed" := by
  have hpos : 0 < (pySplit s (pstr "**")).length :=
    List.length_pos.mpr (pySplit_ne_nil s (pstr "**"))
  obtain ⟨m, hm⟩ := h
  unfold occCount at hm
  have heven : (pySplit s (pstr "**")).length % 2 = 0 := by omega
  have h1 : split_nodes_delimiter [⟨s, .TEXT, none⟩] (pstr "**") .BOLD
      = .error "Invalid markdown, formatted section not closed" := by
    simp only [split_nodes_delimiter]
    simp [heven]
  unfold text_to_textnodes
  rw [h1]
  rfl

/-- Witness for C5: `"**a"` has one occurrence of `**` and lexing it
fails with the unclosed-delimiter error. -/
theorem c5_double_star_odd_fails_witness :
    Odd (occCount (pstr "**a") (pstr "**")) ∧
      text_to_textnodes (pstr "**a") = .error "Invalid markdown, formatted section not closed" :=
  ⟨⟨0, by rfl⟩, c5_double_star_odd_fails (pstr "**a") ⟨0, by rfl⟩⟩

/-- C5 counterexample: the claim as stated fails for the delimiter
`` ` ``: in `"*`*"` the backtick occurs once (an odd count), yet lexing
succeeds, returning a single italic node — the backtick sits inside a span
consumed by the earlier `*` pass, which later passes skip. -/
theorem c5_counterexample :
    Odd (occCount (pstr "*`*") (pstr "`")) ∧
      text_to_textnodes (pstr "*`*") = .ok [⟨pstr "`", .ITALIC, none⟩] ∧
      text_to_textnodes (pstr "*`*") ≠ .error "Invalid markdown, formatted section not closed" :=
  ⟨⟨0, by rfl⟩, by rfl, by decide⟩

/-- C8: rendering a Parent fails with "no tag" when its tag is unset and
with "no children" when its children collection is unset, while a Parent
with an explicitly empty children sequence renders as the empty element
`<tag></tag>` — unset and empty are distinguished. -/
theorem c8_parent_unset_vs_empty (c : Option (List HTMLNode))
    (p p' : Option (List (List Char × Option (List Char)))) (t : List Char) :
    to_html (.parent none c p) = .error "Invalid HTML: no tag" ∧
    to_html (.parent (some t) none p') = .error "Invalid HTML: no children" ∧
    to_html (.parent (some t) (some []) none) =
      .ok ('<' :: (t ++ '>' :: '<' :: '/' :: (t ++ ['>']))) := by
  refine ⟨?_, ?_, ?_⟩
  · simp [to_html]
  · simp [to_html]
  · simp [to_html, children_html, props_to_html, ok_bind]

/-! ### Claim C9 -/

theorem find_title_line_ok_iff (L : List (List Char)) (t : List Char) :
    find_title_line L = .ok t ↔
      ∃ pre line post, L = pre ++ line :: post ∧
        (∀ l ∈ pre, ¬ (pstr "# ").isPrefixOf l = true) ∧
        (pstr "# ").isPrefixOf line = true ∧ t = line.drop 2 := by
  induction L with
  | nil =>
    constructor
    · intro h; simp [find_title_line] at h
    · rintro ⟨pre, line, post, h, -⟩
      exact absurd h (by simp)
  | cons l rest ih =>
    by_cases hp : (pstr "# ").isPrefixOf l = true
    · rw [find_title_line, if_pos hp]
      constructor
      · intro h
        have ht : l.drop 2 = t := by simpa using h
        exact ⟨[], l, rest, by simp, by simp, hp, ht.symm⟩
      · rintro ⟨pre, line, post, heq, hpre, hline, ht⟩
        cases pre with
        | nil =>
          simp only [List.nil_append] at heq
          injection heq with h1 h2
          rw [ht, h1]
        | cons q qs =>
          simp only [List.cons_append] at heq
          injection heq with h1 h2
          exact absurd (h1 ▸ hp) (hpre q (List.mem_cons_self _ _))
    · rw [find_title_line, if_neg hp, ih]
      constructor
      · rintro ⟨pre, line, post, heq, hpre, hline, ht⟩
        refine ⟨l :: pre, line, post, by rw [heq]; simp, ?_, hline, ht⟩
        intro x hx
        rcases List.mem_cons.mp hx with h1 | h1
        · rw [h1]; exact hp
        · exact hpre x h1
      · rintro ⟨pre, line, post, heq, hpre, hline, ht⟩
        cases pre with
        | nil =>
          simp only [List.nil_append] at heq
          injection heq with h1 h2
          exact absurd (h1 ▸ hline) hp
        | cons q qs =>
          simp only [List.cons_append] at heq
          injection heq with h1 h2
          exact ⟨qs, line, post, h2, fun x hx => hpre x (List.mem_cons_of_mem _ hx), hline, ht⟩

theorem find_title_line_error_iff (L : List (List Char)) :
    find_title_line L = .error "No title found in the markdown file" ↔
      ∀ l ∈ L, ¬ (pstr "# ").isPrefixOf l = true := by
  induction L with
  | nil => simp [find_title_line]
  | cons l rest ih =>
    by_cases hp : (pstr "# ").isPrefixOf l = true
    · rw [find_title_line, if_pos hp]
      constructor
      · intro h; exact absurd h (by simp)
      · intro h; exact absurd hp (h l (List.mem_cons_self _ _))
    · rw [find_title_line, if_neg hp, ih]
      constructor
      · intro h x hx
        rcases List.mem_cons.mp hx with h1 | h1
        · rw [h1]; exact hp
        · exact h x h1
      · intro h x hx
        exact h x (List.mem_cons_of_mem _ hx)

/-- C9: `extract_title` returns the remainder (after the two-character
marker) of the first line starting with `"# "` when such a line exists,
and fails with the no-title error if and only if no line of the document
starts with `"# "`. -/
theorem c9_extract_title_spec (md : List Char) :
    (∀ t, extract_title md = .ok t ↔
      ∃ pre line post, pySplit md (pstr "\n") = pre ++ line :: post ∧
        (∀ l ∈ pre, ¬ (pstr "# ").isPrefixOf l = true) ∧
        (pstr "# ").isPrefixOf line = true ∧ t = line.drop 2) ∧
    (extract_title md = .error "No title found in the markdown file" ↔
      ∀ l ∈ pySplit md (pstr "\n"), ¬ (pstr "# ").isPrefixOf l = true) :=
  ⟨fun t => find_title_line_ok_iff _ t, find_title_line_error_iff _⟩

/-! ### Claims C7 and C10: pipeline invariants -/

theorem sections_to_nodes_mem {sections : List (List Char)} {ty : TextType} {n : TextNode}
    (h : n ∈ sections_to_nodes sections ty) :
    ∃ s, s ≠ [] ∧ (n = ⟨s, .TEXT, none⟩ ∨ n = ⟨s, ty, none⟩) := by
  unfold sections_to_nodes at h
  obtain ⟨⟨i, s⟩, -, heq⟩ := List.mem_filterMap.mp h
  by_cases hs : s = []
  · rw [if_pos hs] at heq; exact absurd heq (by simp)
  · rw [if_neg hs] at heq
    obtain rfl := Option.some.inj heq
    refine ⟨s, hs, ?_⟩
    cases h2 : (i % 2 == 0) <;> simp [h2]

theorem split_nodes_delimiter_all {P : TextNode → Prop} {d : List Char} {ty : TextType} :
    ∀ {nodes out : List TextNode},
    split_nodes_delimiter nodes d ty = .ok out →
    (∀ n ∈ nodes, n.text_type ≠ .TEXT → P n) →
    (∀ s, s ≠ [] → P ⟨s, .TEXT, none⟩) →
    (∀ s, s ≠ [] → P ⟨s, ty, none⟩) →
    ∀ n ∈ out, P n := by
  intro nodes
  induction nodes with
  | nil =>
    intro out h hold h2 h3
    simp only [split_nodes_delimiter] at h
    obtain rfl := Except.ok.inj h
    simp
  | cons nd rest ih =>
    intro out h hold h2 h3
    simp only [split_nodes_delimiter] at h
    split at h
    · rename_i hty
      obtain ⟨r, hr, hc⟩ := except_bind_ok h
      obtain rfl := Except.ok.inj hc
      intro n hn
      rcases List.mem_cons.mp hn with h4 | h4
      · exact h4 ▸ hold nd (List.mem_cons_self _ _) hty
      · exact ih hr (fun x hx hxt => hold x (List.mem_cons_of_mem _ hx) hxt) h2 h3 n h4
    · split at h
      · exact absurd h (by simp)
      · obtain ⟨r, hr, hc⟩ := except_bind_ok h
        obtain rfl := Except.ok.inj hc
        intro n hn
        rcases List.mem_append.mp hn with h4 | h4
        · obtain ⟨s, hs, hor⟩ := sections_to_nodes_mem h4
          rcases hor with h5 | h5
          · exact h5 ▸ h2 s hs
          · exact h5 ▸ h3 s hs
        · exact ih hr (fun x hx hxt => hold x (List.mem_cons_of_mem _ hx) hxt) h2 h3 n h4

theorem image_loop_mem :
    ∀ {imgs : List (List Char × List Char)} {original : List Char} {out : List TextNode},
    image_loop original imgs = .ok out →
    ∀ n ∈ out, (∃ s, s ≠ [] ∧ n = ⟨s, .TEXT, none⟩) ∨ ∃ l u, n = ⟨l, .IMAGE, some u⟩ := by
  intro imgs
  induction imgs with
  | nil =>
    intro original out h n hn
    simp only [image_loop] at h
    obtain rfl := Except.ok.inj h
    split at hn
    · rename_i ho
      exact Or.inl ⟨original, ho, by simpa using hn⟩
    · simp at hn
  | cons p rest ih =>
    intro original out h n hn
    obtain ⟨l, u⟩ := p
    simp only [image_loop] at h
    cases hsp : splitOnce original (imgLit l u) with
    | none => rw [hsp] at h; simp at h
    | some pq =>
      obtain ⟨pre, suf⟩ := pq
      rw [hsp] at h
      obtain ⟨tail, htail, hc⟩ := except_bind_ok h
      obtain rfl := Except.ok.inj hc
      rcases List.mem_append.mp hn with h1 | h1
      · split at h1
        · rename_i hpre
          exact Or.inl ⟨pre, hpre, by simpa using h1⟩
        · simp at h1
      · rcases List.mem_cons.mp h1 with h2 | h2
        · right; exact ⟨l, u, h2⟩
        · exact ih htail n h2

theorem link_loop_mem :
    ∀ {links : List (List Char × List Char)} {original : List Char} {out : List TextNode},
    link_loop original links = .ok out →
    ∀ n ∈ out, (∃ s, s ≠ [] ∧ n = ⟨s, .TEXT, none⟩) ∨ ∃ l u, n = ⟨l, .LINK, some u⟩ := by
  intro links
  induction links with
  | nil =>
    intro original out h n hn
    simp only [link_loop] at h
    obtain rfl := Except.ok.inj h
    split at hn
    · rename_i ho
      exact Or.inl ⟨original, ho, by simpa using hn⟩
    · simp at hn
  | cons p rest ih =>
    intro original out h n hn
    obtain ⟨l, u⟩ := p
    simp only [link_loop] at h
    cases hsp : splitOnce original (linkLit l u) with
    | none => rw [hsp] at h; simp at h
    | some pq =>
      obtain ⟨pre, suf⟩ := pq
      rw [hsp] at h
      obtain ⟨tail, htail, hc⟩ := except_bind_ok h
      obtain rfl := Except.ok.inj hc
      rcases List.mem_append.mp hn with h1 | h1
      · split at h1
        · rename_i hpre
          exact Or.inl ⟨pre, hpre, by simpa using h1⟩
        · simp at h1
      · rcases List.mem_cons.mp h1 with h2 | h2
        · right; exact ⟨l, u, h2⟩
        · exact ih htail n h2

theorem split_nodes_image_all {P : TextNode → Prop} :
    ∀ {nodes out : List TextNode},
    split_nodes_image nodes = .ok out →
    (∀ n ∈ nodes, P n) →
    (∀ s, s ≠ [] → P ⟨s, .TEXT, none⟩) →
    (∀ l u, P ⟨l, .IMAGE, some u⟩) →
    ∀ n ∈ out, P n := by
  intro nodes
  induction nodes with
  | nil =>
    intro out h h1 h2 h3
    simp only [split_nodes_image] at h
    obtain rfl := Except.ok.inj h
    simp
  | cons nd rest ih =>
    intro out h h1 h2 h3
    simp only [split_nodes_image] at h
    split at h
    · obtain ⟨r, hr, hc⟩ := except_bind_ok h
      obtain rfl := Except.ok.inj hc
      intro n hn
      rcases List.mem_cons.mp hn with h4 | h4
      · exact h4 ▸ h1 nd (List.mem_cons_self _ _)
      · exact ih hr (fun x hx => h1 x (List.mem_cons_of_mem _ hx)) h2 h3 n h4
    · split at h
      · obtain ⟨r, hr, hc⟩ := except_bind_ok h
        obtain rfl := Except.ok.inj hc
        intro n hn
        rcases List.mem_cons.mp hn with h4 | h4
        · exact h4 ▸ h1 nd (List.mem_cons_self _ _)
        · exact ih hr (fun x hx => h1 x (List.mem_cons_of_mem _ hx)) h2 h3 n h4
      · obtain ⟨pieces, hp, h'⟩ := except_bind_ok h
        obtain ⟨r, hr, hc⟩ := except_bind_ok h'
        obtain rfl := Except.ok.inj hc
        intro n hn
        rcases List.mem_append.mp hn with h4 | h4
        · rcases image_loop_mem hp n h4 with ⟨s, hs, rfl⟩ | ⟨l, u, rfl⟩
          · exact h2 s hs
          · exact h3 l u
        · exact ih hr (fun x hx => h1 x (List.mem_cons_of_mem _ hx)) h2 h3 n h4

theorem split_nodes_link_all {P : TextNode → Prop} :
    ∀ {nodes out : List TextNode},
    split_nodes_link nodes = .ok out →
    (∀ n ∈ nodes, P n) →
    (∀ s, s ≠ [] → P ⟨s, .TEXT, none⟩) →
    (∀ l u, P ⟨l, .LINK, some u⟩) →
    ∀ n ∈ out, P n := by
  intro nodes
  induction nodes with
  | nil =>
    intro out h h1 h2 h3
    simp only [split_nodes_link] at h
    obtain rfl := Except.ok.inj h
    simp
  | cons nd rest ih =>
    intro out h h1 h2 h3
    simp only [split_nodes_link] at h
    split at h
    · obtain ⟨r, hr, hc⟩ := except_bind_ok h
      obtain rfl := Except.ok.inj hc
      intro n hn
      rcases List.mem_cons.mp hn with h4 | h4
      · exact h4 ▸ h1 nd (List.mem_cons_self _ _)
      · exact ih hr (fun x hx => h1 x (List.mem_cons_of_mem _ hx)) h2 h3 n h4
    · split at h
      · obtain ⟨r, hr, hc⟩ := except_bind_ok h
        obtain rfl := Except.ok.inj hc
        intro n hn
        rcases List.mem_cons.mp hn with h4 | h4
        · exact h4 ▸ h1 nd (List.mem_cons_self _ _)
        · exact ih hr (fun x hx => h1 x (List.mem_cons_of_mem _ hx)) h2 h3 n h4
      · obtain ⟨pieces, hp, h'⟩ := except_bind_ok h
        obtain ⟨r, hr, hc⟩ := except_bind_ok h'
        obtain rfl := Except.ok.inj hc
        intro n hn
        rcases List.mem_append.mp hn with h4 | h4
        · rcases link_loop_mem hp n h4 with ⟨s, hs, rfl⟩ | ⟨l, u, rfl⟩
          · exact h2 s hs
          · exact h3 l u
        · exact ih hr (fun x hx => h1 x (List.mem_cons_of_mem _ hx)) h2 h3 n h4

/-- C7: for every input on which lexing succeeds, every node returned by
`text_to_textnodes` has a url that is present if and only if its kind is
link or image. -/
theorem c7_url_iff_link_or_image (s : List Char) (out : List TextNode)
    (h : text_to_textnodes s = .ok out) :
    ∀ n ∈ out, (n.url ≠ none ↔ n.text_type = .LINK ∨ n.text_type = .IMAGE) := by
  unfold text_to_textnodes at h
  obtain ⟨n1, h1, h⟩ := except_bind_ok h
  obtain ⟨n2, h2, h⟩ := except_bind_ok h
  obtain ⟨n3, h3, h⟩ := except_bind_ok h
  obtain ⟨n4, h4, h5⟩ := except_bind_ok h
  have p1 : ∀ n ∈ n1, (n.url ≠ none ↔ n.text_type = .LINK ∨ n.text_type = .IMAGE) :=
    split_nodes_delimiter_all h1 (by simp) (by simp) (by simp)
  have p2 := split_nodes_delimiter_all h2 (fun n hn _ => p1 n hn) (by simp) (by simp)
  have p3 := split_nodes_delimiter_all h3 (fun n hn _ => p2 n hn) (by simp) (by simp)
  have p4 := split_nodes_image_all h4 p3 (by simp) (by simp)
  exact split_nodes_link_all h5 p4 (by simp) (by simp)

/-- Witness for C7: lexing `"[x](y)"` succeeds with the single link node
`("x", LINK, some "y")`, whose url is present and whose kind is link. -/
theorem c7_witness :
    ((⟨pstr "x", .LINK, some (pstr "y")⟩ : TextNode).url ≠ none ↔
      (⟨pstr "x", .LINK, some (pstr "y")⟩ : TextNode).text_type = .LINK ∨
        (⟨pstr "x", .LINK, some (pstr "y")⟩ : TextNode).text_type = .IMAGE) :=
  c7_url_iff_link_or_image (pstr "[x](y)") [⟨pstr "x", .LINK, some (pstr "y")⟩] (by rfl) _
    (List.mem_singleton.mpr rfl)

/-- C10: for every input on which lexing succeeds, no node of kind plain,
bold, italic or code in the output of `text_to_textnodes` has empty text;
and lexing the empty string yields the empty node sequence. -/
theorem c10_no_empty_core_text :
    (∀ s out, text_to_textnodes s = .ok out →
      ∀ n ∈ out,
        (n.text_type = .TEXT ∨ n.text_type = .BOLD ∨ n.text_type = .ITALIC ∨ n.text_type = .CODE) →
        n.text ≠ []) ∧
    text_to_textnodes (pstr "") = .ok [] := by
  constructor
  · intro s out h
    unfold text_to_textnodes at h
    obtain ⟨n1, h1, h⟩ := except_bind_ok h
    obtain ⟨n2, h2, h⟩ := except_bind_ok h
    obtain ⟨n3, h3, h⟩ := except_bind_ok h
    obtain ⟨n4, h4, h5⟩ := except_bind_ok h
    have p1 : ∀ n ∈ n1,
        (n.text_type = .TEXT ∨ n.text_type = .BOLD ∨ n.text_type = .ITALIC ∨ n.text_type = .CODE) →
          n.text ≠ [] :=
      split_nodes_delimiter_all h1 (by simp) (fun s hs => by simp [hs]) (fun s hs => by simp [hs])
    have p2 := split_nodes_delimiter_all h2 (fun n hn _ => p1 n hn)
      (fun s hs => by simp [hs]) (fun s hs => by simp [hs])
    have p3 := split_nodes_delimiter_all h3 (fun n hn _ => p2 n hn)
      (fun s hs => by simp [hs]) (fun s hs => by simp [hs])
    have p4 := split_nodes_image_all h4 p3 (fun s hs => by simp [hs]) (by simp)
    exact split_nodes_link_all h5 p4 (fun s hs => by simp [hs]) (by simp)
  · rfl

/-- Witness for C10: lexing `"a"` succeeds with one plain node whose text
is non-empty. -/
theorem c10_witness : (⟨pstr "a", .TEXT, none⟩ : TextNode).text ≠ [] :=
  c10_no_empty_core_text.1 (pstr "a") [⟨pstr "a", .TEXT, none⟩] (by rfl) _
    (List.mem_singleton.mpr rfl) (Or.inl rfl)

/-! ### Claim C6: the image and link split error branches are unreachable -/

/-- Sequential containment: the literals occur in `s`, in order and
without overlap (each after the end of the previous one). -/
def SeqContains : List Char → List (List Char) → Prop
  | _, [] => True
  | s, lit :: rest => ∃ pre suf, s = pre ++ lit ++ suf ∧ SeqContains suf rest

theorem seqContains_extend (x s : List Char) (L : List (List Char))
    (h : SeqContains s L) : SeqContains (x ++ s) L := by
  cases L with
  | nil => simp [SeqContains]
  | cons lit rest =>
    obtain ⟨pre, suf, heq, hr⟩ := h
    exact ⟨x ++ pre, suf, by rw [heq]; simp [List.append_assoc], hr⟩

theorem imgLit_ne_nil (l d : List Char) : imgLit l d ≠ [] := by simp [imgLit]

theorem linkLit_ne_nil (l d : List Char) : linkLit l d ≠ [] := by simp [linkLit]

theorem matchTail_decomp {rest l d r : List Char} (h : matchTail rest = some (l, d, r)) :
    rest = l ++ ']' :: '(' :: (d ++ ')' :: r) := by
  unfold matchTail at h
  rcases hdb : rest.dropWhile notBracket with - | ⟨b1, bs⟩
  · simp only [hdb] at h; exact absurd h (by simp)
  · rcases bs with - | ⟨b2, rest2⟩
    · simp only [hdb] at h; exact absurd h (by simp)
    · simp only [hdb] at h
      by_cases hb : b1 = ']' ∧ b2 = '('
      · rw [if_pos hb] at h
        rcases hdp : rest2.dropWhile notParen with - | ⟨p1, r2⟩
        · simp only [hdp] at h; exact absurd h (by simp)
        · simp only [hdp] at h
          by_cases hp : p1 = ')'
          · rw [if_pos hp] at h
            obtain ⟨h1, h2, h3⟩ : rest.takeWhile notBracket = l ∧
                rest2.takeWhile notParen = d ∧ r2 = r := by simpa using h
            subst h1; subst h2; subst h3
            have e1 : rest.takeWhile notBracket ++ rest.dropWhile notBracket = rest :=
              List.takeWhile_append_dropWhile notBracket rest
            have e2 : rest2.takeWhile notParen ++ rest2.dropWhile notParen = rest2 :=
              List.takeWhile_append_dropWhile notParen rest2
            conv_lhs => rw [← e1, hdb, hb.1, hb.2]
            have e3 : rest2 = rest2.takeWhile notParen ++ ')' :: r2 := by
              conv_lhs => rw [← e2, hdp, hp]
            conv_lhs => rw [e3]
          · rw [if_neg hp] at h; exact absurd h (by simp)
      · rw [if_neg hb] at h; exact absurd h (by simp)

theorem matchImageAt_decomp {s l d r : List Char} (h : matchImageAt s = some (l, d, r)) :
    s = imgLit l d ++ r := by
  rcases s with - | ⟨c1, s1⟩
  · exact absurd h (by simp [matchImageAt])
  · rcases s1 with - | ⟨c2, rest⟩
    · exact absurd h (by simp [matchImageAt])
    · simp only [matchImageAt] at h
      split at h
      · rename_i hc
        have := matchTail_decomp h
        rw [imgLit, hc.1, hc.2, this]
        simp
      · exact absurd h (by simp)

theorem matchLinkAt_decomp {s l d r : List Char} (h : matchLinkAt s = some (l, d, r)) :
    s = linkLit l d ++ r := by
  rcases s with - | ⟨c1, rest⟩
  · exact absurd h (by simp [matchLinkAt])
  · simp only [matchLinkAt] at h
    split at h
    · rename_i hc
      have := matchTail_decomp h
      rw [linkLit, hc, this]
      simp
    · exact absurd h (by simp)

theorem findImagesF_seq (fuel : Nat) :
    ∀ s, SeqContains s ((findImagesF fuel s).map fun p => imgLit p.1 p.2) := by
  induction fuel with
  | zero => intro s; simp [findImagesF, SeqContains]
  | succ n ih =>
    intro s
    cases hm : matchImageAt s with
    | some ldr =>
      obtain ⟨l, d, r⟩ := ldr
      have hdec := matchImageAt_decomp hm
      simp only [findImagesF, hm, List.map_cons]
      exact ⟨[], r, by simpa using hdec, ih r⟩
    | none =>
      simp only [findImagesF, hm]
      cases s with
      | nil => simp [SeqContains]
      | cons c t => exact seqContains_extend [c] t _ (ih t)

theorem findLinksF_seq (fuel : Nat) :
    ∀ (bang : Bool) (s : List Char),
      SeqContains s ((findLinksF fuel bang s).map fun p => linkLit p.1 p.2) := by
  induction fuel with
  | zero => intro bang s; simp [findLinksF, SeqContains]
  | succ n ih =>
    intro bang s
    cases s with
    | nil => simp [findLinksF, SeqContains]
    | cons c t =>
      simp only [findLinksF]
      by_cases hb : bang = true
      · rw [if_pos hb]
        exact seqContains_extend [c] t _ (ih (c == '!') t)
      · rw [if_neg hb]
        cases hm : matchLinkAt (c :: t) with
        | some ldr =>
          obtain ⟨l, d, r⟩ := ldr
          have hdec := matchLinkAt_decomp hm
          simp only [hm, List.map_cons]
          exact ⟨[], r, by simpa using hdec, ih false r⟩
        | none =>
          simp only [hm]
          exact seqContains_extend [c] t _ (ih (c == '!') t)

theorem splitOnce_of_seq {lit : List Char} (hlit : lit ≠ []) :
    ∀ {s : List Char} {L : List (List Char)}, SeqContains s (lit :: L) →
      ∃ pre suf, splitOnce s lit = some (pre, suf) ∧ SeqContains suf L := by
  intro s
  induction s with
  | nil =>
    intro L h
    obtain ⟨pre, suf, heq, -⟩ := h
    exact absurd heq.symm (by simp [hlit])
  | cons c t ih =>
    intro L h
    by_cases hp : lit.isPrefixOf (c :: t) = true
    · obtain ⟨pre, suf, heq, hsuf⟩ := h
      refine ⟨[], (c :: t).drop lit.length, ?_, ?_⟩
      · simp [splitOnce, hp]
      · obtain ⟨w, hw⟩ := List.isPrefixOf_iff_prefix.mp hp
        have hwd : (c :: t).drop lit.length = w := by rw [← hw]; exact List.drop_left _ _
        have hlw : lit ++ w = (pre ++ lit) ++ suf := hw.trans heq
        have e2 : ((pre ++ lit) ++ suf).drop (pre.length + lit.length) = suf := by
          rw [← List.length_append]; exact List.drop_left _ _
        have hkey : suf = w.drop pre.length := by
          calc suf = ((pre ++ lit) ++ suf).drop (pre.length + lit.length) := e2.symm
            _ = (lit ++ w).drop (pre.length + lit.length) := by rw [hlw]
            _ = (lit ++ w).drop (lit.length + pre.length) := by rw [Nat.add_comm]
            _ = w.drop pre.length := List.drop_append pre.length
        rw [hwd]
        have hext := seqContains_extend (w.take pre.length) (w.drop pre.length) L (hkey ▸ hsuf)
        rwa [List.take_append_drop] at hext
    · obtain ⟨pre, suf, heq, hsuf⟩ := h
      cases pre with
      | nil =>
        exfalso
        apply hp
        apply List.isPrefixOf_iff_prefix.mpr
        exact ⟨suf, by simpa using heq.symm⟩
      | cons q qs =>
        simp only [List.cons_append] at heq
        injection heq with h1 h2
        obtain ⟨p2, s2, hsp, hs2⟩ := ih ⟨qs, suf, h2, hsuf⟩
        refine ⟨c :: p2, s2, ?_, hs2⟩
        simp [splitOnce, hp, hsp]

theorem image_loop_ok :
    ∀ (imgs : List (List Char × List Char)) (original : List Char),
      SeqContains original (imgs.map fun p => imgLit p.1 p.2) →
      ∃ out, image_loop original imgs = .ok out := by
  intro imgs
  induction imgs with
  | nil => intro original h; exact ⟨_, rfl⟩
  | cons p rest ih =>
    intro original h
    obtain ⟨l, u⟩ := p
    simp only [List.map_cons] at h
    obtain ⟨pre, suf, hsp, hsc⟩ := splitOnce_of_seq (imgLit_ne_nil l u) h
    obtain ⟨out2, hout⟩ := ih suf hsc
    refine ⟨(if pre ≠ [] then [⟨pre, .TEXT, none⟩] else []) ++ ⟨l, .IMAGE, some u⟩ :: out2, ?_⟩
    simp only [image_loop, hsp]
    rw [hout]
    rfl

theorem link_loop_ok :
    ∀ (links : List (List Char × List Char)) (original : List Char),
      SeqContains original (links.map fun p => linkLit p.1 p.2) →
      ∃ out, link_loop original links = .ok out := by
  intro links
  induction links with
  | nil => intro original h; exact ⟨_, rfl⟩
  | cons p rest ih =>
    intro original h
    obtain ⟨l, u⟩ := p
    simp only [List.map_cons] at h
    obtain ⟨pre, suf, hsp, hsc⟩ := splitOnce_of_seq (linkLit_ne_nil l u) h
    obtain ⟨out2, hout⟩ := ih suf hsc
    refine ⟨(if pre ≠ [] then [⟨pre, .TEXT, none⟩] else []) ++ ⟨l, .LINK, some u⟩ :: out2, ?_⟩
    simp only [link_loop, hsp]
    rw [hout]
    rfl

theorem split_nodes_image_ok (nodes : List TextNode) :
    ∃ out, split_nodes_image nodes = .ok out := by
  induction nodes with
  | nil => exact ⟨[], rfl⟩
  | cons n rest ih =>
    obtain ⟨r, hr⟩ := ih
    by_cases hty : n.text_type = .TEXT
    · by_cases himg : (extract_markdown_images n.text).isEmpty
      · refine ⟨n :: r, ?_⟩
        simp only [split_nodes_image]
        rw [if_neg (by simp [hty]), if_pos himg, hr]
        rfl
      · have hseq : SeqContains n.text
            ((extract_markdown_images n.text).map fun p => imgLit p.1 p.2) :=
          findImagesF_seq (n.text.length + 1) n.text
        obtain ⟨pieces, hp⟩ := image_loop_ok _ _ hseq
        refine ⟨pieces ++ r, ?_⟩
        simp only [split_nodes_image]
        rw [if_neg (by simp [hty]), if_neg himg, hp, hr]
        rfl
    · refine ⟨n :: r, ?_⟩
      simp only [split_nodes_image]
      rw [if_pos hty, hr]
      rfl

theorem split_nodes_link_ok (nodes : List TextNode) :
    ∃ out, split_nodes_link nodes = .ok out := by
  induction nodes with
  | nil => exact ⟨[], rfl⟩
  | cons n rest ih =>
    obtain ⟨r, hr⟩ := ih
    by_cases hty : n.text_type = .TEXT
    · by_cases hlnk : (extract_markdown_links n.text).isEmpty
      · refine ⟨n :: r, ?_⟩
        simp only [split_nodes_link]
        rw [if_neg (by simp [hty]), if_pos hlnk, hr]
        rfl
      · have hseq : SeqContains n.text
            ((extract_markdown_links n.text).map fun p => linkLit p.1 p.2) :=
          findLinksF_seq (n.text.length + 1) false n.text
        obtain ⟨pieces, hp⟩ := link_loop_ok _ _ hseq
        refine ⟨pieces ++ r, ?_⟩
        simp only [split_nodes_link]
        rw [if_neg (by simp [hty]), if_neg hlnk, hp, hr]
        rfl
    · refine ⟨n :: r, ?_⟩
      simp only [split_nodes_link]
      rw [if_pos hty, hr]
      rfl

/-- C6: for every list of nodes, the "image section not closed" and "link
section not closed" error branches of `split_nodes_image` and
`split_nodes_link` are unreachable: whenever extraction returns a
label/destination pair, splitting the remaining text on the literal
reconstructed syntax always yields exactly two parts, so both functions
always succeed. -/
theorem c6_image_link_branches_unreachable (nodes : List TextNode) :
    (∃ out, split_nodes_image nodes = .ok out) ∧
      ∃ out, split_nodes_link nodes = .ok out :=
  ⟨split_nodes_image_ok nodes, split_nodes_link_ok nodes⟩
